import Mathlib

/-!
Verification of the QR Art Studio rendering engine
(`src/components/qr-art-studio.tsx`).

The development shallowly embeds the renderer: geometry is over `ℚ`,
a canvas is a function from points to an optional paint (where `none`
models a fully transparent pixel, alpha 0), and the drawing pipeline is
the list of primitive canvas operations the source issues, in source
order.  Curved silhouettes built from Bezier curves (the `shield` and
`flower` eye frames) are modelled by their bounding boxes; every other
shape (rect, rounded rect with radius clamping, circle, diamond) gets
its exact fill region.
-/

namespace QrStudio

/-- Finder-pattern classifier, from `isFinderPattern` in
`qr-art-studio.tsx` (lines 241-246).  Coordinates and the module count
are integers, matching JS number arithmetic on loop indices (the
subtraction `moduleCount - 7` may go negative for tiny counts). -/
def isFinderPattern (x y moduleCount : Int) : Bool :=
  if x < 7 ∧ y < 7 then true
  else if moduleCount - 7 ≤ x ∧ y < 7 then true
  else if x < 7 ∧ moduleCount - 7 ≤ y then true
  else false

/-- Number of coordinates of the N-by-N grid classified as eye modules. -/
def eyeModuleCount (N : ℕ) : ℕ :=
  (((Finset.range N) ×ˢ (Finset.range N)).filter
    (fun p => isFinderPattern (p.1 : ℤ) (p.2 : ℤ) (N : ℤ) = true)).card

/-- The top-left 7-by-7 corner block of the grid. -/
def eyeBlockTL : Finset (ℕ × ℕ) := (Finset.range 7) ×ˢ (Finset.range 7)

/-- The top-right 7-by-7 corner block of the grid. -/
def eyeBlockTR (N : ℕ) : Finset (ℕ × ℕ) := (Finset.Ico (N - 7) N) ×ˢ (Finset.range 7)

/-- The bottom-left 7-by-7 corner block of the grid. -/
def eyeBlockBL (N : ℕ) : Finset (ℕ × ℕ) := (Finset.range 7) ×ˢ (Finset.Ico (N - 7) N)

theorem isFinderPattern_iff (x y n : ℤ) :
    isFinderPattern x y n = true ↔
      (x < 7 ∧ y < 7) ∨ (n - 7 ≤ x ∧ y < 7) ∨ (x < 7 ∧ n - 7 ≤ y) := by
  constructor
  · intro h
    unfold isFinderPattern at h
    split_ifs at h with h1 h2 h3 <;> tauto
  · intro h
    unfold isFinderPattern
    split_ifs with h1 h2 h3 <;> first | rfl | omega

theorem eyeFilter_eq_blocks (N : ℕ) (hN : 21 ≤ N) :
    ((Finset.range N) ×ˢ (Finset.range N)).filter
        (fun p => isFinderPattern (p.1 : ℤ) (p.2 : ℤ) (N : ℤ) = true) =
      eyeBlockTL ∪ eyeBlockTR N ∪ eyeBlockBL N := by
  ext ⟨a, b⟩
  simp only [Finset.mem_filter, Finset.mem_product, Finset.mem_range, Finset.mem_union,
    Finset.mem_Ico, eyeBlockTL, eyeBlockTR, eyeBlockBL, isFinderPattern_iff]
  omega

/-- C1: the finder-pattern classifier returns true exactly on the three
7-by-7 corner blocks (top-left, top-right, bottom-left); for `N ≥ 21` it
accepts exactly `147` coordinates of the N-by-N grid, and the three
blocks are pairwise disjoint. -/
theorem finderPattern_characterization (N : ℕ) (hN : 21 ≤ N) :
    (∀ x y : ℤ, isFinderPattern x y (N : ℤ) = true ↔
      (x < 7 ∧ y < 7) ∨ ((N : ℤ) - 7 ≤ x ∧ y < 7) ∨ (x < 7 ∧ (N : ℤ) - 7 ≤ y)) ∧
    eyeModuleCount N = 147 ∧
    Disjoint eyeBlockTL (eyeBlockTR N) ∧
    Disjoint eyeBlockTL (eyeBlockBL N) ∧
    Disjoint (eyeBlockTR N) (eyeBlockBL N) := by
  have hTLTR : Disjoint eyeBlockTL (eyeBlockTR N) := by
    rw [Finset.disjoint_left]
    rintro ⟨a, b⟩ h1 h2
    simp only [eyeBlockTL, eyeBlockTR, Finset.mem_product, Finset.mem_range,
      Finset.mem_Ico] at h1 h2
    omega
  have hTLBL : Disjoint eyeBlockTL (eyeBlockBL N) := by
    rw [Finset.disjoint_left]
    rintro ⟨a, b⟩ h1 h2
    simp only [eyeBlockTL, eyeBlockBL, Finset.mem_product, Finset.mem_range,
      Finset.mem_Ico] at h1 h2
    omega
  have hTRBL : Disjoint (eyeBlockTR N) (eyeBlockBL N) := by
    rw [Finset.disjoint_left]
    rintro ⟨a, b⟩ h1 h2
    simp only [eyeBlockTR, eyeBlockBL, Finset.mem_product, Finset.mem_range,
      Finset.mem_Ico] at h1 h2
    omega
  refine ⟨fun x y => isFinderPattern_iff x y (N : ℤ), ?_, hTLTR, hTLBL, hTRBL⟩
  have hcard : eyeModuleCount N =
      (eyeBlockTL ∪ eyeBlockTR N ∪ eyeBlockBL N).card := by
    rw [eyeModuleCount, eyeFilter_eq_blocks N hN]
  rw [hcard, Finset.card_union_of_disjoint, Finset.card_union_of_disjoint hTLTR]
  · have h1 : eyeBlockTL.card = 49 := by
      simp [eyeBlockTL]
    have h2 : (eyeBlockTR N).card = 49 := by
      simp only [eyeBlockTR, Finset.card_product, Finset.card_range, Nat.card_Ico]
      omega
    have h3 : (eyeBlockBL N).card = 49 := by
      simp only [eyeBlockBL, Finset.card_product, Finset.card_range, Nat.card_Ico]
      omega
    omega
  · exact Finset.disjoint_union_left.mpr ⟨hTLBL, hTRBL⟩

theorem finderPattern_characterization_holds :
    21 ≤ 21 ∧ eyeModuleCount 21 = 147 :=
  ⟨by decide, (finderPattern_characterization 21 (by decide)).2.1⟩

/-! ## Data model

The `Design` record, from the interface used by `qr-art-studio.tsx`.
Optional string fields (`pixelGradientStart`, `imageOverlayColor`, ...)
are modelled as plain strings where `""` stands for both the empty
string and `undefined`: the source only ever tests them for JS
truthiness, and both values are falsy. -/

inductive PixelStyle where
  | square | rounded | circle | diamond
deriving DecidableEq

inductive EyeShape where
  | frame | shield | flower
deriving DecidableEq

inductive EyeStyle where
  | square | circle
deriving DecidableEq

inductive CanvasShape where
  | square | circle
deriving DecidableEq

inductive ImageFilter where
  | none | light | blackAndWhite | sketchy
deriving DecidableEq

structure Design where
  id : Int
  name : String
  template : String
  pixelStyle : PixelStyle
  pixelColor : String
  pixelGradientStart : String
  pixelGradientEnd : String
  eyeShape : EyeShape
  eyeStyle : EyeStyle
  eyeRadius : ℚ
  backgroundColor : String
  bgGradientStart : String
  bgGradientEnd : String
  transparentBg : Bool
  padding : ℚ
  canvasShape : CanvasShape
  useImage : Bool
  imageFilter : ImageFilter
  imageOverlayColor : String
  imageOverlayOpacity : ℚ
  imageBlur : ℚ
  text : String
  foregroundColor : String
deriving DecidableEq

/-- The QR matrix handed over by the external encoder:
`modules.data` indexed by `y * size + x`, with JS truthiness of an
entry meaning a dark module. -/
structure QrMatrix where
  size : ℕ
  dark : ℕ → Bool

/-- Intrinsic dimensions of a decoded background image. -/
structure ImageData where
  width : ℚ
  height : ℚ
deriving DecidableEq

/-! ## Canvas model

A point of the drawing plane; a canvas maps each point to `none`
(fully transparent, alpha 0) or to the paint that last covered it.
Semi-transparent overlay fills are recorded as an `overlay` paint: the
claims under verification only distinguish alpha 0 from nonzero. -/

abbrev Point := ℚ × ℚ

inductive Paint where
  | solid (color : String)
  | linearGradient (x0 y0 x1 y1 : ℚ) (c0 c1 : String)
  | imagePaint (filter : String)
  | overlay (color : String) (alpha : ℚ)
deriving DecidableEq

/-- Fill shapes constructed by the renderer.  Constructor arguments are
those the source passes to the corresponding canvas path builder. -/
inductive PathShape where
  | rect (x y w h : ℚ)
  | roundRect (x y w h r : ℚ)
  | circle (cx cy r : ℚ)
  | diamond (x y s : ℚ)
  | shield (x y s : ℚ)
  | flower (x y s : ℚ)
deriving DecidableEq

/-- Quarter-disc test used for rounded-rect corners. -/
def cornerIn (cx cy r px py : ℚ) : Bool :=
  decide ((px - cx) ^ 2 + (py - cy) ^ 2 ≤ r ^ 2)

/-- Exact fill region of a rounded rectangle, with the corner radius
clamped to the half-extents as the canvas `roundRect` primitive does. -/
def roundRectMemB (x y w h r px py : ℚ) : Bool :=
  let rc := max 0 (min r (min (w / 2) (h / 2)))
  decide (x ≤ px ∧ px ≤ x + w ∧ y ≤ py ∧ py ≤ y + h) &&
  (decide (x + rc ≤ px) || decide (y + rc ≤ py) || cornerIn (x + rc) (y + rc) rc px py) &&
  (decide (px ≤ x + w - rc) || decide (y + rc ≤ py) || cornerIn (x + w - rc) (y + rc) rc px py) &&
  (decide (x + rc ≤ px) || decide (py ≤ y + h - rc) || cornerIn (x + rc) (y + h - rc) rc px py) &&
  (decide (px ≤ x + w - rc) || decide (py ≤ y + h - rc) || cornerIn (x + w - rc) (y + h - rc) rc px py)

/-- Membership of a point in a shape's fill region.  The Bezier-curve
silhouettes (`shield`, `flower`) are abstracted by their bounding
boxes; all other shapes are exact. -/
def PathShape.memB : PathShape → Point → Bool
  | .rect x y w h, p => decide (x ≤ p.1 ∧ p.1 ≤ x + w ∧ y ≤ p.2 ∧ p.2 ≤ y + h)
  | .roundRect x y w h r, p => roundRectMemB x y w h r p.1 p.2
  | .circle cx cy r, p => decide ((p.1 - cx) ^ 2 + (p.2 - cy) ^ 2 ≤ r ^ 2)
  | .diamond x y s, p => decide (|p.1 - (x + s / 2)| + |p.2 - (y + s / 2)| ≤ s / 2)
  | .shield x y s, p => decide (x ≤ p.1 ∧ p.1 ≤ x + s ∧ y ≤ p.2 ∧ p.2 ≤ y + s)
  | .flower x y s, p => decide (x ≤ p.1 ∧ p.1 ≤ x + s ∧ y ≤ p.2 ∧ p.2 ≤ y + s)

/-- Effective draw region: a path, possibly intersected with an active
clip region (`ctx.clip`). -/
inductive Region where
  | shape (s : PathShape)
  | inter (a b : Region)
deriving DecidableEq

def Region.memB : Region → Point → Bool
  | .shape s, p => s.memB p
  | .inter a b, p => a.memB p && b.memB p

abbrev Canvas := Point → Option Paint

/-- Primitive canvas operations issued by the renderer. -/
inductive CanvasOp where
  | clearRegion (r : Region)
  | fillRegion (r : Region) (paint : Paint)
deriving DecidableEq

def applyOp (c : Canvas) : CanvasOp → Canvas
  | .clearRegion r => fun p => if r.memB p then none else c p
  | .fillRegion r paint => fun p => if r.memB p then some paint else c p

def runOps (c : Canvas) : List CanvasOp → Canvas
  | [] => c
  | op :: rest => runOps (applyOp c op) rest

/-- A freshly created canvas element is fully transparent. -/
def blankCanvas : Canvas := fun _ => none

theorem runOps_append (c : Canvas) (l1 l2 : List CanvasOp) :
    runOps c (l1 ++ l2) = runOps (runOps c l1) l2 := by
  induction l1 generalizing c with
  | nil => rfl
  | cons op rest ih => simp [runOps, ih]

/-- A pixel that starts transparent and lies outside every fill
operation's region stays transparent through the pipeline. -/
theorem runOps_none (L : List CanvasOp) (c : Canvas) (p : Point)
    (hc : c p = none)
    (hL : ∀ r paint, CanvasOp.fillRegion r paint ∈ L → r.memB p = false) :
    runOps c L p = none := by
  induction L generalizing c with
  | nil => exact hc
  | cons op rest ih =>
    cases op with
    | clearRegion r =>
      apply ih
      · simp only [applyOp]
        split <;> [rfl; exact hc]
      · intro r2 paint h
        exact hL r2 paint (List.mem_cons_of_mem _ h)
    | fillRegion r paint =>
      apply ih
      · have hr : r.memB p = false := hL r paint (List.mem_cons_self _ _)
        simp [applyOp, hr, hc]
      · intro r2 paint2 h
        exact hL r2 paint2 (List.mem_cons_of_mem _ h)

/-! ## The renderer (`drawCustomQr` and helpers)

Each definition mirrors the corresponding block of the source in
source order; the asynchronous image decode inside `drawBackground` is
modelled by an explicit `imgLoads` parameter saying whether `onload`
or `onerror` fires. -/

/-- Cover-fit rectangle for the background image: scale preserving
aspect ratio so the padded QR region is filled, centering the
overflowing dimension (the `imgAspectRatio` arithmetic of
`drawBackground`). -/
def imageFitRect (pad region : ℚ) (img : ImageData) : PathShape :=
  let ar := img.width / img.height
  if 1 < ar then
    PathShape.rect (pad + (region - region * ar) / 2) pad (region * ar) region
  else
    PathShape.rect pad (pad + (region - region / ar) / 2) region (region / ar)

/-- CSS filter string assembled before `drawImage`: an optional blur
part followed by the named filter's expansion. -/
def resolvedFilter (d : Design) : String :=
  let blurPart : List String :=
    if 0 < d.imageBlur then ["blur(" ++ toString d.imageBlur ++ "px)"] else []
  let namePart : List String :=
    match d.imageFilter with
    | .none => []
    | .blackAndWhite => ["grayscale(100%)"]
    | .light => ["brightness(150%)"]
    | .sketchy => ["grayscale(100%) contrast(200%) brightness(120%)"]
  String.intercalate " " (blurPart ++ namePart)

/-- Background pass (`drawBackground`).  The canvas is cleared, the
quiet zone is filled with `backgroundColor`, then: transparency clears
everything; an image background draws the cover-fitted image clipped
to the padded region plus an optional overlay, falling back to a solid
fill of the padded region when the image fails to load; otherwise the
padded region is filled with the background gradient or solid color.
The JS defaulting `imageOverlayOpacity || 0.5` maps 0 (and undefined)
to one half. -/
def drawBackgroundOps (d : Design) (bgImage : Option ImageData) (imgLoads : Bool)
    (canvasSize pad region : ℚ) : List CanvasOp :=
  let canvasRect := Region.shape (PathShape.rect 0 0 canvasSize canvasSize)
  let paddedRect := PathShape.rect pad pad region region
  [CanvasOp.clearRegion canvasRect,
   CanvasOp.fillRegion canvasRect (Paint.solid d.backgroundColor)] ++
  (if d.transparentBg ∧ ¬ d.useImage then
    [CanvasOp.clearRegion canvasRect]
  else
    match (if d.useImage then bgImage else none) with
    | some img =>
        if imgLoads then
          CanvasOp.fillRegion
            (Region.inter (Region.shape (imageFitRect pad region img))
              (Region.shape paddedRect))
            (Paint.imagePaint (resolvedFilter d)) ::
          (if d.imageOverlayColor ≠ "" then
            [CanvasOp.fillRegion (Region.inter (Region.shape paddedRect) (Region.shape paddedRect))
              (Paint.overlay d.imageOverlayColor
                (if d.imageOverlayOpacity = 0 then 1 / 2 else d.imageOverlayOpacity))]
          else [])
        else
          [CanvasOp.fillRegion (Region.shape paddedRect) (Paint.solid d.backgroundColor)]
    | none =>
        [CanvasOp.fillRegion (Region.shape paddedRect)
          (if d.bgGradientStart ≠ "" ∧ d.bgGradientEnd ≠ "" then
            Paint.linearGradient 0 0 canvasSize canvasSize d.bgGradientStart d.bgGradientEnd
          else Paint.solid d.backgroundColor)])

/-- Module paint resolution at the top of the draw sequence: a
diagonal canvas-spanning gradient when both endpoints are set and no
image background is used, else the solid pixel color. -/
def resolvePixelPaint (d : Design) (canvasSize : ℚ) : Paint :=
  if d.pixelGradientStart ≠ "" ∧ d.pixelGradientEnd ≠ "" ∧ ¬ d.useImage then
    Paint.linearGradient 0 0 canvasSize canvasSize d.pixelGradientStart d.pixelGradientEnd
  else Paint.solid d.pixelColor

/-- Per-module shape (`drawModule`): positioned at
`(x * size + padding, y * size + padding)`, geometry by `pixelStyle`. -/
def modulePath (x y msize pad : ℚ) (style : PixelStyle) : PathShape :=
  let top := y * msize + pad
  let left := x * msize + pad
  match style with
  | .circle => PathShape.circle (left + msize / 2) (top + msize / 2) (msize / 2 * (9 / 10))
  | .diamond => PathShape.diamond left top msize
  | .rounded => PathShape.roundRect left top msize msize (msize * (1 / 4))
  | .square => PathShape.rect left top msize msize

/-- Guard of the module loop: the module is drawn when its data entry
is truthy and it is not part of a finder pattern. -/
def moduleDrawn (qr : QrMatrix) (i : ℕ) : Bool :=
  qr.dark i && ! isFinderPattern ((i % qr.size : ℕ) : ℤ) ((i / qr.size : ℕ) : ℤ) (qr.size : ℤ)

/-- The module pass: iterate indices `i = y * size + x` in source
order, emitting a fill for each drawn module. -/
def moduleOps (qr : QrMatrix) (d : Design) (canvasSize msize pad : ℚ) : List CanvasOp :=
  (List.range (qr.size * qr.size)).filterMap fun i =>
    if moduleDrawn qr i then
      some (CanvasOp.fillRegion
        (Region.shape (modulePath ((i % qr.size : ℕ) : ℚ) ((i / qr.size : ℕ) : ℚ) msize pad d.pixelStyle))
        (resolvePixelPaint d canvasSize))
    else none

/-- Outer eye frame silhouette (`drawEye` layer 1), at absolute offset
`(ox, oy)` (the source translates by `padding + corner * moduleSize`). -/
def framePath (d : Design) (ox oy msize : ℚ) : PathShape :=
  let eyeSize := msize * 7
  match d.eyeShape with
  | .shield => PathShape.shield ox oy eyeSize
  | .flower => PathShape.flower ox oy eyeSize
  | .frame => PathShape.roundRect ox oy eyeSize eyeSize (d.eyeRadius * (msize / 8))

/-- Pupil-socket shape (`drawEye` layer 2): `pupilBgPos = moduleSize`,
`pupilBgSize = eyeSize - 2 * moduleSize`, radius `eyeRadius * msize/16`. -/
def pupilSocketPath (d : Design) (ox oy msize : ℚ) : PathShape :=
  let eyeSize := msize * 7
  let pupilBgPos := msize
  let pupilBgSize := eyeSize - msize * 2
  match d.eyeStyle with
  | .circle => PathShape.circle (ox + eyeSize / 2) (oy + eyeSize / 2) (pupilBgSize / 2)
  | .square => PathShape.roundRect (ox + pupilBgPos) (oy + pupilBgPos) pupilBgSize pupilBgSize
      (d.eyeRadius * (msize / 16))

/-- Inner pupil shape (`drawEye` layer 3): side `pupilSize = 3 *
moduleSize`, centered. -/
def pupilPath (d : Design) (ox oy msize : ℚ) : PathShape :=
  let eyeSize := msize * 7
  let pupilSize := msize * 3
  let pupilPos := (eyeSize - pupilSize) / 2
  match d.eyeStyle with
  | .circle => PathShape.circle (ox + eyeSize / 2) (oy + eyeSize / 2) (pupilSize / 2)
  | .square => PathShape.roundRect (ox + pupilPos) (oy + pupilPos) pupilSize pupilSize
      (d.eyeRadius * (msize / 16))

/-- Effective carve region of layer 2: the socket path as clip,
intersected with the `clearRect`/`fillRect` over the local eye square. -/
def carveRegion (d : Design) (ox oy msize : ℚ) : Region :=
  Region.inter (Region.shape (pupilSocketPath d ox oy msize))
    (Region.shape (PathShape.rect ox oy (msize * 7) (msize * 7)))

/-- Layer 2 of `drawEye`: under the clip, `clearRect` when
`transparentBg && !useImage`, else a `backgroundColor` fill. -/
def carveOp (d : Design) (ox oy msize : ℚ) : CanvasOp :=
  if d.transparentBg ∧ ¬ d.useImage then CanvasOp.clearRegion (carveRegion d ox oy msize)
  else CanvasOp.fillRegion (carveRegion d ox oy msize) (Paint.solid d.backgroundColor)

/-- One `drawEye` invocation: frame fill, pupil-socket carve, pupil
fill, all in `pixelColor` except the carve. -/
def drawEyeOps (d : Design) (cornerX cornerY msize pad : ℚ) : List CanvasOp :=
  let ox := pad + cornerX * msize
  let oy := pad + cornerY * msize
  [CanvasOp.fillRegion (Region.shape (framePath d ox oy msize)) (Paint.solid d.pixelColor),
   carveOp d ox oy msize,
   CanvasOp.fillRegion (Region.shape (pupilPath d ox oy msize)) (Paint.solid d.pixelColor)]

/-- Final canvas-shape pass (`applyCanvasShape`): for a circular
canvas, composite `destination-in` against the inscribed disc, which
keeps a pixel's color exactly on the disc and zeroes alpha outside. -/
def applyCanvasShape (d : Design) (canvasSize : ℚ) (c : Canvas) : Canvas :=
  match d.canvasShape with
  | .circle => fun p =>
      if (PathShape.circle (canvasSize / 2) (canvasSize / 2) (canvasSize / 2)).memB p
      then c p else none
  | .square => c

/-- Module cell size: `(canvasSize - padding * 2) / moduleCount`. -/
def moduleSizeOf (qr : QrMatrix) (d : Design) (canvasSize : ℚ) : ℚ :=
  (canvasSize - d.padding * 2) / (qr.size : ℚ)

/-- Full operation sequence of one `drawCustomQr` run: background,
then modules, then the three eyes at `(0,0)`, `(size-7,0)`,
`(0,size-7)`. -/
def renderOps (qr : QrMatrix) (d : Design) (bgImage : Option ImageData) (imgLoads : Bool)
    (canvasSize : ℚ) : List CanvasOp :=
  let pad := d.padding
  let region := canvasSize - pad * 2
  let msize := moduleSizeOf qr d canvasSize
  drawBackgroundOps d bgImage imgLoads canvasSize pad region ++
  moduleOps qr d canvasSize msize pad ++
  (drawEyeOps d 0 0 msize pad ++
   drawEyeOps d ((qr.size : ℚ) - 7) 0 msize pad ++
   drawEyeOps d 0 ((qr.size : ℚ) - 7) msize pad)

/-- The composited canvas of one run: all draw operations on a blank
canvas, then the canvas-shape pass strictly last. -/
def renderCanvas (qr : QrMatrix) (d : Design) (bgImage : Option ImageData) (imgLoads : Bool)
    (canvasSize : ℚ) : Canvas :=
  applyCanvasShape d canvasSize (runOps blankCanvas (renderOps qr d bgImage imgLoads canvasSize))

/-- Top of `drawCustomQr`: a null matrix resolves immediately to the
empty artifact (modelled `Except.ok none`); otherwise the promise
resolves with the composited canvas.  The only rejection in the source
is an unavailable 2D context, an environment failure outside this
model. -/
def drawCustomQr (qrData : Option QrMatrix) (d : Design) (bgImage : Option ImageData)
    (imgLoads : Bool) (canvasSize : ℚ) : Except String (Option Canvas) :=
  match qrData with
  | none => Except.ok none
  | some qr => Except.ok (some (renderCanvas qr d bgImage imgLoads canvasSize))

/-! ## Coverage predicates used to state the transparency claim. -/

/-- The point lies in the fill region of some drawn dark module. -/
def coveredByModuleB (qr : QrMatrix) (d : Design) (msize pad : ℚ) (p : Point) : Bool :=
  (List.range (qr.size * qr.size)).any fun i =>
    moduleDrawn qr i &&
    (modulePath ((i % qr.size : ℕ) : ℚ) ((i / qr.size : ℕ) : ℚ) msize pad d.pixelStyle).memB p

/-- The point lies in the frame or pupil fill of the eye drawn at the
given corner. -/
def eyeGlyphB (d : Design) (cornerX cornerY msize pad : ℚ) (p : Point) : Bool :=
  let ox := pad + cornerX * msize
  let oy := pad + cornerY * msize
  (framePath d ox oy msize).memB p || (pupilPath d ox oy msize).memB p

/-- The point lies in some eye glyph (frame or pupil) of the three
rendered eyes. -/
def coveredByEyeB (qr : QrMatrix) (d : Design) (msize pad : ℚ) (p : Point) : Bool :=
  eyeGlyphB d 0 0 msize pad p ||
  eyeGlyphB d ((qr.size : ℚ) - 7) 0 msize pad p ||
  eyeGlyphB d 0 ((qr.size : ℚ) - 7) msize pad p

theorem runOps_clear_fill_clear (c : Canvas) (r : Region) (paint : Paint) (p : Point)
    (hc : c p = none) :
    runOps c [CanvasOp.clearRegion r, CanvasOp.fillRegion r paint, CanvasOp.clearRegion r] p
      = none := by
  simp only [runOps, applyOp]
  by_cases h : r.memB p <;> simp [h, hc]

/-- C2: with `transparentBg = true` and `useImage = false`, every
pixel of the composited canvas that is not covered by a drawn dark
module nor by an eye glyph (frame or pupil fill) has alpha 0: the
background pass clears the canvas and the eye carve layer clears
rather than fills. -/
theorem transparentBg_pixels_clear (qr : QrMatrix) (d : Design) (bgImage : Option ImageData)
    (imgLoads : Bool) (canvasSize : ℚ) (p : Point)
    (hT : d.transparentBg = true) (hU : d.useImage = false)
    (hm : coveredByModuleB qr d (moduleSizeOf qr d canvasSize) d.padding p = false)
    (he : coveredByEyeB qr d (moduleSizeOf qr d canvasSize) d.padding p = false) :
    renderCanvas qr d bgImage imgLoads canvasSize p = none := by
  have hbgList : drawBackgroundOps d bgImage imgLoads canvasSize d.padding
      (canvasSize - d.padding * 2) =
      [CanvasOp.clearRegion (Region.shape (PathShape.rect 0 0 canvasSize canvasSize)),
       CanvasOp.fillRegion (Region.shape (PathShape.rect 0 0 canvasSize canvasSize))
         (Paint.solid d.backgroundColor),
       CanvasOp.clearRegion (Region.shape (PathShape.rect 0 0 canvasSize canvasSize))] := by
    simp [drawBackgroundOps, hT, hU]
  have hbg : runOps blankCanvas (drawBackgroundOps d bgImage imgLoads canvasSize d.padding
      (canvasSize - d.padding * 2)) p = none := by
    rw [hbgList]
    exact runOps_clear_fill_clear _ _ _ _ rfl
  have hmod : ∀ i ∈ List.range (qr.size * qr.size), moduleDrawn qr i = true →
      (modulePath ((i % qr.size : ℕ) : ℚ) ((i / qr.size : ℕ) : ℚ)
        (moduleSizeOf qr d canvasSize) d.padding d.pixelStyle).memB p = false := by
    intro i hi hdrawn
    by_contra hmem
    rw [Bool.not_eq_false] at hmem
    have : coveredByModuleB qr d (moduleSizeOf qr d canvasSize) d.padding p = true := by
      rw [coveredByModuleB, List.any_eq_true]
      exact ⟨i, hi, by rw [hdrawn, hmem]; rfl⟩
    rw [this] at hm
    exact Bool.true_eq_false.mp hm
  have heyes : ∀ cx cy : ℚ,
      eyeGlyphB d cx cy (moduleSizeOf qr d canvasSize) d.padding p = false →
      ∀ r paint,
        CanvasOp.fillRegion r paint ∈ drawEyeOps d cx cy (moduleSizeOf qr d canvasSize) d.padding →
        r.memB p = false := by
    intro cx cy hg r paint hmem
    simp only [eyeGlyphB, Bool.or_eq_false_iff] at hg
    simp only [drawEyeOps, carveOp, hT, hU, List.mem_cons, List.mem_singleton] at hmem
    rcases hmem with h | h | h
    · injection h with h1 h2
      rw [h1]
      exact hg.1
    · simp at h
    · rcases h with h | h
      · injection h with h1 h2
        rw [h1]
        exact hg.2
      · simp at h
  have hcov : coveredByEyeB qr d (moduleSizeOf qr d canvasSize) d.padding p = false := he
  simp only [coveredByEyeB, Bool.or_eq_false_iff] at hcov
  have hinner : runOps blankCanvas (renderOps qr d bgImage imgLoads canvasSize) p = none := by
    rw [renderOps]
    rw [List.append_assoc, runOps_append]
    apply runOps_none
    · exact hbg
    · intro r paint hmem
      rw [List.mem_append] at hmem
      rcases hmem with hmem | hmem
      · simp only [moduleOps, List.mem_filterMap] at hmem
        obtain ⟨i, hi, hop⟩ := hmem
        by_cases hdrawn : moduleDrawn qr i = true
        · rw [if_pos hdrawn, Option.some_inj] at hop
          cases hop
          exact hmod i hi hdrawn
        · rw [if_neg hdrawn] at hop
          cases hop
      · rw [List.mem_append] at hmem
        rcases hmem with hmem | hmem
        · rw [List.mem_append] at hmem
          rcases hmem with hmem | hmem
          · exact heyes 0 0 hcov.1.1 r paint hmem
          · exact heyes _ 0 hcov.1.2 r paint hmem
        · exact heyes 0 _ hcov.2 r paint hmem
  rw [renderCanvas, applyCanvasShape]
  cases hshape : d.canvasShape with
  | square => exact hinner
  | circle =>
    simp only
    split
    · exact hinner
    · rfl

/-! ## Concrete fixtures for witness instantiations. -/

/-- A basic transparent design: square pixels, frame eyes, square
pupils, transparent background, no image. -/
def designT : Design :=
  { id := 1, name := "basic", template := "/templates/template1.svg",
    pixelStyle := PixelStyle.square, pixelColor := "#000000",
    pixelGradientStart := "", pixelGradientEnd := "",
    eyeShape := EyeShape.frame, eyeStyle := EyeStyle.square, eyeRadius := 8,
    backgroundColor := "#FFFFFF", bgGradientStart := "", bgGradientEnd := "",
    transparentBg := true, padding := 0, canvasShape := CanvasShape.square,
    useImage := false, imageFilter := ImageFilter.none,
    imageOverlayColor := "#FFFFFF", imageOverlayOpacity := 1 / 2, imageBlur := 0,
    text := "", foregroundColor := "#000000" }

/-- Variant of `designT` with a circular canvas. -/
def designC : Design := { designT with canvasShape := CanvasShape.circle }

/-- Variant of `designT` using an image background over an opaque
canvas. -/
def designI : Design := { designT with useImage := true, transparentBg := false }

/-- One-module matrix, fully dark. -/
def qrOne : QrMatrix := { size := 1, dark := fun _ => true }

/-- Eight-module matrix whose only dark module is `(7, 7)`, the one
coordinate of the grid outside all finder patterns. -/
def qrEight : QrMatrix := { size := 8, dark := fun i => decide (i = 63) }

theorem transparentBg_pixels_clear_holds :
    designT.transparentBg = true ∧ designT.useImage = false ∧
    coveredByModuleB qrOne designT (moduleSizeOf qrOne designT 7) designT.padding
      ((100 : ℚ), (100 : ℚ)) = false ∧
    coveredByEyeB qrOne designT (moduleSizeOf qrOne designT 7) designT.padding
      ((100 : ℚ), (100 : ℚ)) = false ∧
    renderCanvas qrOne designT none true 7 ((100 : ℚ), (100 : ℚ)) = none := by
  have hm : coveredByModuleB qrOne designT (moduleSizeOf qrOne designT 7) designT.padding
      ((100 : ℚ), (100 : ℚ)) = false := by
    norm_num [coveredByModuleB, moduleDrawn, qrOne, designT, isFinderPattern]
  have he : coveredByEyeB qrOne designT (moduleSizeOf qrOne designT 7) designT.padding
      ((100 : ℚ), (100 : ℚ)) = false := by
    norm_num [coveredByEyeB, eyeGlyphB, framePath, pupilPath, designT, qrOne, moduleSizeOf,
      PathShape.memB, roundRectMemB, cornerIn]
  exact ⟨rfl, rfl, hm, he,
    transparentBg_pixels_clear qrOne designT none true 7 ((100 : ℚ), (100 : ℚ)) rfl rfl hm he⟩

/-- C3: every module fill uses the single resolved pixel paint, which
is the diagonal canvas-spanning gradient from `pixelGradientStart` to
`pixelGradientEnd` exactly when both endpoints are nonempty and
`useImage` is false, and the solid `pixelColor` in every other case. -/
theorem pixelPaint_resolution (d : Design) (qr : QrMatrix) (canvasSize msize pad : ℚ) :
    (∀ op ∈ moduleOps qr d canvasSize msize pad,
      ∃ r, op = CanvasOp.fillRegion r (resolvePixelPaint d canvasSize)) ∧
    (resolvePixelPaint d canvasSize =
        Paint.linearGradient 0 0 canvasSize canvasSize d.pixelGradientStart d.pixelGradientEnd
      ↔ d.pixelGradientStart ≠ "" ∧ d.pixelGradientEnd ≠ "" ∧ d.useImage = false) ∧
    (resolvePixelPaint d canvasSize = Paint.solid d.pixelColor
      ↔ ¬(d.pixelGradientStart ≠ "" ∧ d.pixelGradientEnd ≠ "" ∧ d.useImage = false)) := by
  refine ⟨?_, ?_, ?_⟩
  · intro op hop
    simp only [moduleOps, List.mem_filterMap] at hop
    obtain ⟨i, hi, h⟩ := hop
    by_cases hdrawn : moduleDrawn qr i = true
    · rw [if_pos hdrawn, Option.some_inj] at h
      exact ⟨_, h.symm⟩
    · rw [if_neg hdrawn] at h
      cases h
  · rw [resolvePixelPaint]
    by_cases hc : d.pixelGradientStart ≠ "" ∧ d.pixelGradientEnd ≠ "" ∧ ¬ d.useImage = true
    · rw [if_pos hc]
      simp only [Bool.not_eq_true] at hc
      simpa using hc
    · rw [if_neg hc]
      simp only [Bool.not_eq_true] at hc
      constructor
      · intro h
        exact absurd h (by simp)
      · intro h
        exact absurd h hc
  · rw [resolvePixelPaint]
    by_cases hc : d.pixelGradientStart ≠ "" ∧ d.pixelGradientEnd ≠ "" ∧ ¬ d.useImage = true
    · rw [if_pos hc]
      simp only [Bool.not_eq_true] at hc
      constructor
      · intro h
        exact absurd h (by simp)
      · intro h
        exact absurd hc h
    · rw [if_neg hc]
      simp only [Bool.not_eq_true] at hc
      simpa using hc

theorem pixelPaint_resolution_holds :
    (CanvasOp.fillRegion
        (Region.shape (modulePath ((7 : ℕ) : ℚ) ((7 : ℕ) : ℚ) 1 0 designT.pixelStyle))
        (resolvePixelPaint designT 8) ∈ moduleOps qrEight designT 8 1 0) ∧
    (∃ r, CanvasOp.fillRegion
        (Region.shape (modulePath ((7 : ℕ) : ℚ) ((7 : ℕ) : ℚ) 1 0 designT.pixelStyle))
        (resolvePixelPaint designT 8) = CanvasOp.fillRegion r (resolvePixelPaint designT 8)) := by
  have hmem : CanvasOp.fillRegion
      (Region.shape (modulePath ((7 : ℕ) : ℚ) ((7 : ℕ) : ℚ) 1 0 designT.pixelStyle))
      (resolvePixelPaint designT 8) ∈ moduleOps qrEight designT 8 1 0 := by
    rw [moduleOps]
    apply List.mem_filterMap.mpr
    refine ⟨63, by simp [qrEight], ?_⟩
    norm_num [moduleDrawn, qrEight, isFinderPattern]
  exact ⟨hmem, (pixelPaint_resolution designT qrEight 8 1 0).1 _ hmem⟩

/-- C5: the canvas-shape pass runs strictly after all module and eye
drawing (it is applied to the canvas produced by the full operation
list); it is the identity for a square canvas, and for a circular
canvas it keeps unchanged every pixel within half the canvas size of
the center (squared-distance comparison) and zeroes the alpha of every
pixel farther away. -/
theorem canvasShape_finalizer (qr : QrMatrix) (d : Design) (bgImage : Option ImageData)
    (imgLoads : Bool) (canvasSize : ℚ) (c : Canvas) (p : Point) :
    renderCanvas qr d bgImage imgLoads canvasSize =
      applyCanvasShape d canvasSize
        (runOps blankCanvas (renderOps qr d bgImage imgLoads canvasSize)) ∧
    (d.canvasShape = CanvasShape.square → applyCanvasShape d canvasSize c = c) ∧
    (d.canvasShape = CanvasShape.circle →
      ((p.1 - canvasSize / 2) ^ 2 + (p.2 - canvasSize / 2) ^ 2 ≤ (canvasSize / 2) ^ 2 →
        applyCanvasShape d canvasSize c p = c p) ∧
      ((canvasSize / 2) ^ 2 < (p.1 - canvasSize / 2) ^ 2 + (p.2 - canvasSize / 2) ^ 2 →
        applyCanvasShape d canvasSize c p = none)) := by
  refine ⟨rfl, ?_, ?_⟩
  · intro h
    rw [applyCanvasShape, h]
  · intro h
    rw [applyCanvasShape, h]
    constructor
    · intro hle
      simp only [PathShape.memB, decide_eq_true_eq]
      rw [if_pos hle]
    · intro hlt
      simp only [PathShape.memB, decide_eq_true_eq]
      rw [if_neg (not_le.mpr hlt)]

theorem canvasShape_finalizer_holds :
    (designT.canvasShape = CanvasShape.square ∧
      applyCanvasShape designT 7 (fun _ => some (Paint.solid "k")) =
        (fun _ => some (Paint.solid "k"))) ∧
    (designC.canvasShape = CanvasShape.circle ∧
      ((7 : ℚ) / 2) ^ 2 < (((100 : ℚ)) - 7 / 2) ^ 2 + (((100 : ℚ)) - 7 / 2) ^ 2 ∧
      applyCanvasShape designC 7 (fun _ => some (Paint.solid "k"))
        ((100 : ℚ), (100 : ℚ)) = none) :=
  ⟨⟨rfl, (canvasShape_finalizer qrOne designT none true 7
      (fun _ => some (Paint.solid "k")) ((0 : ℚ), (0 : ℚ))).2.1 rfl⟩,
   ⟨rfl, by norm_num,
    ((canvasShape_finalizer qrOne designC none true 7
      (fun _ => some (Paint.solid "k")) ((100 : ℚ), (100 : ℚ))).2.2 rfl).2 (by norm_num)⟩⟩

/-- C8: when `useImage` is set, an image is supplied, and the image
fails to load (`onerror`), the background pass degrades to the canvas
clear, the quiet-zone fill, and a solid `backgroundColor` fill of the
padded QR region — and the run still resolves with a composited
canvas rather than rejecting. -/
theorem imageError_fallback (qr : QrMatrix) (d : Design) (img : ImageData) (canvasSize : ℚ)
    (hU : d.useImage = true) :
    drawBackgroundOps d (some img) false canvasSize d.padding (canvasSize - d.padding * 2) =
      [CanvasOp.clearRegion (Region.shape (PathShape.rect 0 0 canvasSize canvasSize)),
       CanvasOp.fillRegion (Region.shape (PathShape.rect 0 0 canvasSize canvasSize))
         (Paint.solid d.backgroundColor),
       CanvasOp.fillRegion
         (Region.shape (PathShape.rect d.padding d.padding
           (canvasSize - d.padding * 2) (canvasSize - d.padding * 2)))
         (Paint.solid d.backgroundColor)] ∧
    drawCustomQr (some qr) d (some img) false canvasSize =
      Except.ok (some (renderCanvas qr d (some img) false canvasSize)) := by
  constructor
  · simp [drawBackgroundOps, hU]
  · rfl

theorem imageError_fallback_holds :
    designI.useImage = true ∧
    drawCustomQr (some qrOne) designI (some { width := 4, height := 3 }) false 7 =
      Except.ok (some (renderCanvas qrOne designI (some { width := 4, height := 3 }) false 7)) :=
  ⟨rfl, (imageError_fallback qrOne designI { width := 4, height := 3 } 7 rfl).2⟩

/-- C10: a null QR matrix makes `drawCustomQr` resolve immediately
with the empty artifact (`Except.ok none` in the model), for every
design, background image, load outcome and size — no rejection, no
drawing. -/
theorem nullMatrix_resolves_empty (d : Design) (bgImage : Option ImageData)
    (imgLoads : Bool) (canvasSize : ℚ) :
    drawCustomQr none d bgImage imgLoads canvasSize = Except.ok none := rfl

/-- Pupil-socket carve shape as the spec words it (modelled from the
spec for refinement comparison with `pupilSocketPath`): a centered
`eyeStyle` shape leaving a one-module margin inside the frame —
circle of radius `pupilSize/2 + margin`, or rounded square of side
`pupilSize + 2*margin` with radius `eyeRadius * moduleSize/16`. -/
def pupilSocketPathSpec (d : Design) (ox oy msize : ℚ) : PathShape :=
  let eyeSize := msize * 7
  let pupilSize := msize * 3
  let margin := msize
  match d.eyeStyle with
  | .circle => PathShape.circle (ox + eyeSize / 2) (oy + eyeSize / 2) (pupilSize / 2 + margin)
  | .square =>
      let side := pupilSize + 2 * margin
      PathShape.roundRect (ox + (eyeSize - side) / 2) (oy + (eyeSize - side) / 2) side side
        (d.eyeRadius * (msize / 16))

theorem roundRectMemB_bounds (x y w h r px py : ℚ)
    (hmem : roundRectMemB x y w h r px py = true) :
    x ≤ px ∧ px ≤ x + w ∧ y ≤ py ∧ py ≤ y + h := by
  have h1 : decide (x ≤ px ∧ px ≤ x + w ∧ y ≤ py ∧ py ≤ y + h) = true := by
    by_contra hne
    rw [Bool.not_eq_true] at hne
    rw [roundRectMemB] at hmem
    simp only [hne, Bool.false_and, Bool.false_eq_true] at hmem
  exact of_decide_eq_true h1

/-- C4: the carve layer's clipped region coincides pointwise with the
centered `eyeStyle` socket shape of the spec (circle of radius
`pupilSize/2 + module`, rounded square of side `pupilSize + 2
modules`), and the layer clears it to transparent exactly when
`transparentBg` holds and no image background is in use, filling it
with `backgroundColor` otherwise. -/
theorem eyeCarve_characterization (d : Design) (ox oy msize : ℚ) (hm : 0 ≤ msize) :
    pupilSocketPath d ox oy msize = pupilSocketPathSpec d ox oy msize ∧
    (∀ p : Point, (carveRegion d ox oy msize).memB p = (pupilSocketPath d ox oy msize).memB p) ∧
    (d.transparentBg = true ∧ d.useImage = false →
      carveOp d ox oy msize = CanvasOp.clearRegion (carveRegion d ox oy msize)) ∧
    (¬(d.transparentBg = true ∧ d.useImage = false) →
      carveOp d ox oy msize =
        CanvasOp.fillRegion (carveRegion d ox oy msize) (Paint.solid d.backgroundColor)) := by
  refine ⟨?_, ?_, ?_, ?_⟩
  · cases hs : d.eyeStyle with
    | circle =>
      simp only [pupilSocketPath, pupilSocketPathSpec, hs]
      congr 1
      ring
    | square =>
      simp only [pupilSocketPath, pupilSocketPathSpec, hs]
      congr 1 <;> ring
  · intro p
    show ((pupilSocketPath d ox oy msize).memB p &&
      (PathShape.rect ox oy (msize * 7) (msize * 7)).memB p) = _
    cases hx : (pupilSocketPath d ox oy msize).memB p with
    | false => simp
    | true =>
      simp only [Bool.true_and]
      simp only [PathShape.memB, decide_eq_true_eq]
      cases hs : d.eyeStyle with
      | circle =>
        rw [pupilSocketPath] at hx
        simp only [hs, PathShape.memB, decide_eq_true_eq] at hx
        refine ⟨?_, ?_, ?_, ?_⟩ <;>
          nlinarith [hx, sq_nonneg (p.1 - (ox + msize * 7 / 2)),
            sq_nonneg (p.2 - (oy + msize * 7 / 2)),
            sq_nonneg (p.1 - (ox + msize * 7 / 2) + (msize * 7 - msize * 2) / 2),
            sq_nonneg (p.1 - (ox + msize * 7 / 2) - (msize * 7 - msize * 2) / 2),
            sq_nonneg (p.2 - (oy + msize * 7 / 2) + (msize * 7 - msize * 2) / 2),
            sq_nonneg (p.2 - (oy + msize * 7 / 2) - (msize * 7 - msize * 2) / 2), hm]
      | square =>
        rw [pupilSocketPath] at hx
        simp only [hs] at hx
        have hbox := roundRectMemB_bounds _ _ _ _ _ _ _ hx
        refine ⟨by linarith [hbox.1], by linarith [hbox.2.1], by linarith [hbox.2.2.1],
          by linarith [hbox.2.2.2]⟩
  · intro h
    rw [carveOp, if_pos ⟨h.1, by simp [h.2]⟩]
  · intro h
    have hc : ¬((d.transparentBg = true) ∧ ¬(d.useImage = true)) := by
      intro hcon
      exact h ⟨hcon.1, by simpa using hcon.2⟩
    rw [carveOp, if_neg hc]

theorem eyeCarve_characterization_holds :
    (0 : ℚ) ≤ 1 ∧
    pupilSocketPath designT 0 0 1 = pupilSocketPathSpec designT 0 0 1 ∧
    (carveRegion designT 0 0 1).memB ((3 : ℚ), (3 : ℚ)) =
      (pupilSocketPath designT 0 0 1).memB ((3 : ℚ), (3 : ℚ)) ∧
    carveOp designT 0 0 1 = CanvasOp.clearRegion (carveRegion designT 0 0 1) :=
  ⟨by norm_num,
   (eyeCarve_characterization designT 0 0 1 (by norm_num)).1,
   (eyeCarve_characterization designT 0 0 1 (by norm_num)).2.1 ((3 : ℚ), (3 : ℚ)),
   (eyeCarve_characterization designT 0 0 1 (by norm_num)).2.2.1 ⟨rfl, rfl⟩⟩

theorem modulePath_inj (msize pad : ℚ) (hms : 0 < msize) (st : PixelStyle) (a b c e : ℚ)
    (h : modulePath a b msize pad st = modulePath c e msize pad st) : a = c ∧ b = e := by
  have key : ∀ u v : ℚ, u * msize + pad = v * msize + pad → u = v := by
    intro u v huv
    have : u * msize = v * msize := by linarith
    exact mul_right_cancel₀ (ne_of_gt hms) this
  cases st with
  | square =>
    simp only [modulePath, PathShape.rect.injEq] at h
    exact ⟨key a c h.1, key b e h.2.1⟩
  | rounded =>
    simp only [modulePath, PathShape.roundRect.injEq] at h
    exact ⟨key a c h.1, key b e h.2.1⟩
  | circle =>
    simp only [modulePath, PathShape.circle.injEq] at h
    exact ⟨key a c (by linarith [h.1]), key b e (by linarith [h.2.1])⟩
  | diamond =>
    simp only [modulePath, PathShape.diamond.injEq] at h
    exact ⟨key a c h.1, key b e h.2.1⟩

/-- C7: the module pass emits a fill at grid coordinate `(x, y)` if
and only if the module is dark and the coordinate is outside every
finder-pattern region.  The source renderer admits no logo-exclusion
configuration (no such field exists on `Design`), so the exclusion
clause of the spec holds vacuously. -/
theorem moduleDraw_rule (qr : QrMatrix) (d : Design) (canvasSize msize pad : ℚ) (x y : ℕ)
    (hx : x < qr.size) (hy : y < qr.size) (hms : 0 < msize) :
    (CanvasOp.fillRegion (Region.shape (modulePath (x : ℚ) (y : ℚ) msize pad d.pixelStyle))
        (resolvePixelPaint d canvasSize) ∈ moduleOps qr d canvasSize msize pad)
      ↔ (qr.dark (y * qr.size + x) = true ∧
         isFinderPattern (x : ℤ) (y : ℤ) (qr.size : ℤ) = false) := by
  have hn : 0 < qr.size := Nat.lt_of_le_of_lt (Nat.zero_le x) hx
  have hidx : y * qr.size + x < qr.size * qr.size := by
    calc y * qr.size + x < y * qr.size + qr.size := by omega
    _ = (y + 1) * qr.size := by ring
    _ ≤ qr.size * qr.size := Nat.mul_le_mul_right _ (by omega)
  have hcomm : y * qr.size + x = qr.size * y + x := by ring
  have hmod : (y * qr.size + x) % qr.size = x := by
    rw [hcomm, Nat.mul_add_mod, Nat.mod_eq_of_lt hx]
  have hdiv : (y * qr.size + x) / qr.size = y := by
    rw [hcomm, Nat.mul_add_div hn, Nat.div_eq_of_lt hx]
    omega
  constructor
  · intro hmem
    simp only [moduleOps, List.mem_filterMap, List.mem_range] at hmem
    obtain ⟨i, hi, h⟩ := hmem
    by_cases hdrawn : moduleDrawn qr i = true
    · rw [if_pos hdrawn, Option.some_inj] at h
      injection h with h1 h2
      injection h1 with h1
      obtain ⟨hxc, hyc⟩ := modulePath_inj msize pad hms d.pixelStyle _ _ _ _ h1.symm
      have hxe : x = i % qr.size := Nat.cast_injective hxc
      have hye : y = i / qr.size := Nat.cast_injective hyc
      have hieq : i = y * qr.size + x := by
        rw [hxe, hye, Nat.mul_comm (i / qr.size) qr.size]
        exact (Nat.div_add_mod i qr.size).symm
      rw [moduleDrawn, Bool.and_eq_true, Bool.not_eq_true', ← hxe, ← hye] at hdrawn
      rw [← hieq]
      exact hdrawn
    · rw [if_neg hdrawn] at h
      cases h
  · intro ⟨hdark, hfind⟩
    simp only [moduleOps, List.mem_filterMap, List.mem_range]
    refine ⟨y * qr.size + x, hidx, ?_⟩
    have hdrawn : moduleDrawn qr (y * qr.size + x) = true := by
      rw [moduleDrawn, Bool.and_eq_true, Bool.not_eq_true', hmod, hdiv]
      exact ⟨hdark, hfind⟩
    rw [if_pos hdrawn, hmod, hdiv]

theorem moduleDraw_rule_holds :
    (7 < qrEight.size ∧ (0 : ℚ) < 1) ∧
    (CanvasOp.fillRegion
        (Region.shape (modulePath ((7 : ℕ) : ℚ) ((7 : ℕ) : ℚ) 1 0 designT.pixelStyle))
        (resolvePixelPaint designT 8) ∈ moduleOps qrEight designT 8 1 0) := by
  refine ⟨⟨by norm_num [qrEight], by norm_num⟩, ?_⟩
  exact (moduleDraw_rule qrEight designT 8 1 0 7 7 (by norm_num [qrEight])
    (by norm_num [qrEight]) (by norm_num)).mpr
    ⟨by norm_num [qrEight], by norm_num [isFinderPattern, qrEight]⟩

/-! ## Template injection

`handleGenerate` rewrites the fetched SVG text with
`svgText.replace(/(<image[^>]*?(?:href|xlink:href)=)(["'])(?:[^"']*)(\2)/, ...)`
using the replacement template `$1$2<dataUrl>$3`.  The scanner below
implements that regex's leftmost-match backtracking semantics on
character lists, and `getSub` implements the JS `GetSubstitution`
processing of the replacement text.  The alternation
`(?:href|xlink:href)` reduces to locating `href=`: any `xlink:href=`
occurrence is reached by letting the lazy `[^>]*?` swallow `xlink:`,
with identical match boundaries and group values. -/

def singleQuoteChar : Char := Char.ofNat 39

def dollarChar : Char := Char.ofNat 36

def backtickChar : Char := Char.ofNat 96

def isQuoteChar (c : Char) : Bool := c == '"' || c == singleQuoteChar

/-- Consume an exact literal off the front of the input. -/
def dropLit : List Char → List Char → Option (List Char)
  | [], cs => some cs
  | _ :: _, [] => none
  | l :: ls, c :: cs => if l == c then dropLit ls cs else none

/-- Attempt the regex suffix `href=(["'])[^"']*\2` at the current
position, returning the quote, the value and the remainder. -/
def tryHrefAt (cs : List Char) : Option (Char × List Char × List Char) :=
  match dropLit ("href=".toList) cs with
  | none => none
  | some afterEq =>
    match afterEq with
    | [] => none
    | q :: rest =>
      if isQuoteChar q then
        let val := rest.takeWhile (fun ch => ! isQuoteChar ch)
        match rest.drop val.length with
        | [] => none
        | c2 :: rest2 => if c2 == q then some (q, val, rest2) else none
      else none

/-- Lazy scan of `[^>]*?` inside an image tag: at each position try the
`href=` suffix first (fewest lazily consumed characters wins), else
consume one character provided it is not `>`, as the backtracking
engine does.  Returns the lazily consumed run, the quote, the value
and the remainder. -/
def scanHref : List Char → Option (List Char × Char × List Char × List Char)
  | [] => none
  | c :: cs =>
    match tryHrefAt (c :: cs) with
    | some (q, v, r) => some ([], q, v, r)
    | none =>
      if c == '>' then none
      else
        match scanHref cs with
        | some (lz, q, v, r) => some (c :: lz, q, v, r)
        | none => none

/-- Try the full image pattern at the current position; on success
returns `(group1, quote, value, remainder)` where group 1 spans from
`<image` through `href=`. -/
def matchImageAt (cs : List Char) : Option (List Char × Char × List Char × List Char) :=
  match dropLit ("<image".toList) cs with
  | none => none
  | some rest =>
    match scanHref rest with
    | none => none
    | some (lz, q, v, r) => some ("<image".toList ++ lz ++ "href=".toList, q, v, r)

/-- Leftmost match of the image-href pattern over the whole template:
returns `(pre, group1, quote, value, post)`. -/
def findImageMatch : List Char → Option (List Char × List Char × Char × List Char × List Char)
  | [] => none
  | c :: cs =>
    match matchImageAt (c :: cs) with
    | some (g1, q, v, r) => some ([], g1, q, v, r)
    | none =>
      match findImageMatch cs with
      | some (pre, g1, q, v, r) => some (c :: pre, g1, q, v, r)
      | none => none

/-- Capture-group lookup for the image regex: group 1 is everything
through `href=`, groups 2 and 3 are the opening and closing quote. -/
def groupVal (g1 : List Char) (q : Char) (n : Nat) : Option (List Char) :=
  if n = 1 then some g1 else if n = 2 then some [q] else if n = 3 then some [q] else none

/-- JS `GetSubstitution` over a replacement text: `$$`, `$&`, the
backtick and quote forms for the surrounding context, `$nn` two-digit
and `$n` single-digit group references (invalid references stay
literal), everything else verbatim. -/
def getSub (matched pre post g1 : List Char) (q : Char) (l : List Char) : List Char :=
  match l with
  | [] => []
  | c :: cs =>
    if c == dollarChar then
      match cs with
      | [] => [c]
      | c2 :: cs2 =>
        if c2 == dollarChar then dollarChar :: getSub matched pre post g1 q cs2
        else if c2 == '&' then matched ++ getSub matched pre post g1 q cs2
        else if c2 == backtickChar then pre ++ getSub matched pre post g1 q cs2
        else if c2 == singleQuoteChar then post ++ getSub matched pre post g1 q cs2
        else if c2.isDigit then
          match cs2 with
          | c3 :: cs3 =>
            if c3.isDigit then
              (groupVal g1 q (10 * (c2.toNat - 48) + (c3.toNat - 48))).elim
                ((groupVal g1 q (c2.toNat - 48)).elim
                  (c :: c2 :: getSub matched pre post g1 q (c3 :: cs3))
                  (fun g => g ++ getSub matched pre post g1 q (c3 :: cs3)))
                (fun g => g ++ getSub matched pre post g1 q cs3)
            else
              (groupVal g1 q (c2.toNat - 48)).elim
                (c :: c2 :: getSub matched pre post g1 q (c3 :: cs3))
                (fun g => g ++ getSub matched pre post g1 q (c3 :: cs3))
          | [] =>
            (groupVal g1 q (c2.toNat - 48)).elim [c, c2] (fun g => g)
        else c :: c2 :: getSub matched pre post g1 q cs2
    else c :: getSub matched pre post g1 q cs

/-- The `svgText.replace(...)` call of `handleGenerate`: replace the
leftmost image-href match using the replacement template
`$1$2<url>$3`, or return the template unchanged when there is no
match. -/
def injectChars (tmpl url : List Char) : List Char :=
  match findImageMatch tmpl with
  | none => tmpl
  | some (pre, g1, q, v, post) =>
      let matched := g1 ++ q :: (v ++ [q])
      let replTmpl := (dollarChar :: '1' :: dollarChar :: '2' :: url) ++ [dollarChar, '3']
      pre ++ getSub matched pre post g1 q replTmpl ++ post

def injectQrHref (tmpl url : String) : String :=
  (injectChars tmpl.toList url.toList).asString

theorem dropLit_self (l r : List Char) : dropLit l (l ++ r) = some r := by
  induction l with
  | nil => rfl
  | cons c cs ih => simp [dropLit, ih]

theorem takeWhile_split (f : Char → Bool) (val : List Char) (q : Char) (rest : List Char)
    (hval : ∀ c ∈ val, f c = true) (hq : f q = false) :
    (val ++ q :: rest).takeWhile f = val := by
  induction val with
  | nil => simp [List.takeWhile_cons, hq]
  | cons c cs ih =>
    simp only [List.cons_append, List.takeWhile_cons, hval c (List.mem_cons_self _ _), if_true]
    rw [ih (fun c hc => hval c (List.mem_cons_of_mem _ hc))]

theorem drop_own_length (l r : List Char) : (l ++ r).drop l.length = r := by
  induction l with
  | nil => rfl
  | cons c cs ih => simp [ih]

theorem tryHrefAt_hit (q : Char) (val rest : List Char)
    (hq : isQuoteChar q = true) (hval : ∀ c ∈ val, isQuoteChar c = false) :
    tryHrefAt ("href=".toList ++ (q :: (val ++ (q :: rest)))) = some (q, val, rest) := by
  rw [tryHrefAt, dropLit_self]
  simp only [hq, if_true]
  have htake : (val ++ q :: rest).takeWhile (fun ch => ! isQuoteChar ch) = val :=
    takeWhile_split _ val q rest (fun c hc => by rw [hval c hc]; rfl) (by rw [hq]; rfl)
  rw [htake, drop_own_length]
  simp

theorem scanHref_hit (c : Char) (cs : List Char) (q : Char) (v r : List Char)
    (h : tryHrefAt (c :: cs) = some (q, v, r)) :
    scanHref (c :: cs) = some ([], q, v, r) := by
  rw [scanHref, h]

theorem scanHref_step (c : Char) (cs lz : List Char) (q : Char) (v r : List Char)
    (h : tryHrefAt (c :: cs) = none) (hgt : (c == '>') = false)
    (hs : scanHref cs = some (lz, q, v, r)) :
    scanHref (c :: cs) = some (c :: lz, q, v, r) := by
  rw [scanHref, h, hs]
  simp [hgt]

theorem getSub_plain (matched pre post g1 : List Char) (q : Char) (c : Char) (cs : List Char)
    (hc : (c == dollarChar) = false) :
    getSub matched pre post g1 q (c :: cs) = c :: getSub matched pre post g1 q cs := by
  rw [getSub.eq_def]
  simp [hc]

theorem getSub_group (matched pre post g1 : List Char) (q : Char) (d : Char) (g cs : List Char)
    (hdd : (d == dollarChar) = false) (ha : (d == '&') = false)
    (hb : (d == backtickChar) = false) (hs : (d == singleQuoteChar) = false)
    (hdig : d.isDigit = true) (hn1 : 1 ≤ d.toNat - 48)
    (hg : groupVal g1 q (d.toNat - 48) = some g) :
    getSub matched pre post g1 q (dollarChar :: d :: cs) =
      g ++ getSub matched pre post g1 q cs := by
  have hbig : ∀ m : ℕ, groupVal g1 q (10 * (d.toNat - 48) + m) = none := by
    intro m
    rw [groupVal]
    have : ¬ (10 * (d.toNat - 48) + m = 1) := by omega
    rw [if_neg this]
    have : ¬ (10 * (d.toNat - 48) + m = 2) := by omega
    rw [if_neg this]
    have : ¬ (10 * (d.toNat - 48) + m = 3) := by omega
    rw [if_neg this]
  rw [getSub.eq_def]
  simp only [beq_self_eq_true, if_true, hdd, hb, ha, hs, hdig, Bool.false_eq_true,
    if_false, if_true]
  cases cs with
  | nil =>
    rw [hg]
    simp [getSub.eq_def]
  | cons c3 cs3 =>
    by_cases h3 : c3.isDigit = true
    · simp only [h3, if_true, hbig, hg]
      rfl
    · simp only [h3, Bool.false_eq_true, if_false, hg]
      rfl

theorem getSub_replTmpl (matched pre post g1 : List Char) (q : Char) (url : List Char)
    (hu : ∀ c ∈ url, (c == dollarChar) = false) :
    getSub matched pre post g1 q
      ((dollarChar :: '1' :: dollarChar :: '2' :: url) ++ [dollarChar, '3']) =
      g1 ++ q :: (url ++ [q]) := by
  have h3 : getSub matched pre post g1 q (url ++ [dollarChar, '3']) = url ++ [q] := by
    induction url with
    | nil =>
      show getSub matched pre post g1 q (dollarChar :: '3' :: []) = [q]
      rw [getSub_group matched pre post g1 q '3' [q] [] (by decide) (by decide) (by decide)
        (by decide) (by decide) (by decide) rfl]
      simp [getSub.eq_def]
    | cons c rest ih =>
      rw [List.cons_append, getSub_plain matched pre post g1 q c _
        (hu c (List.mem_cons_self _ _))]
      rw [ih (fun c2 hc2 => hu c2 (List.mem_cons_of_mem _ hc2))]
      rfl
  have h1 : getSub matched pre post g1 q
      ((dollarChar :: '1' :: dollarChar :: '2' :: url) ++ [dollarChar, '3']) =
      g1 ++ getSub matched pre post g1 q ((dollarChar :: '2' :: url) ++ [dollarChar, '3']) := by
    rw [List.cons_append, List.cons_append]
    exact getSub_group matched pre post g1 q '1' g1 _ (by decide) (by decide) (by decide)
      (by decide) (by decide) (by decide) rfl
  have h2 : getSub matched pre post g1 q ((dollarChar :: '2' :: url) ++ [dollarChar, '3']) =
      [q] ++ getSub matched pre post g1 q (url ++ [dollarChar, '3']) := by
    rw [List.cons_append, List.cons_append]
    exact getSub_group matched pre post g1 q '2' [q] _ (by decide) (by decide) (by decide)
      (by decide) (by decide) (by decide) rfl
  rw [h1, h2, h3]
  simp

theorem matchImageAt_eval (rest lz : List Char) (q : Char) (v r : List Char)
    (h : scanHref rest = some (lz, q, v, r)) :
    matchImageAt ("<image".toList ++ rest) =
      some ("<image".toList ++ lz ++ "href=".toList, q, v, r) := by
  rw [matchImageAt, dropLit_self]
  simp only [h]

theorem findImageMatch_eval (rest g1 : List Char) (q : Char) (v r : List Char)
    (h : matchImageAt ('<' :: rest) = some (g1, q, v, r)) :
    findImageMatch ('<' :: rest) = some ([], g1, q, v, r) := by
  rw [findImageMatch]
  rw [h]

/-- C6 counterexample: the template `<image data-href="p"/>` contains
no image element with an `href` or `xlink:href` attribute — its only
attribute is `data-href` — so the claim requires injection to return
it unchanged; but the regex's `(?:href|xlink:href)` preceded by the
lazy `[^>]*?` also fires on any attribute whose name merely ends in
`href`, so the source rewrites the `data-href` value. -/
theorem injectArtifact_counterexample :
    injectQrHref "<image data-href=\"p\"/>" "data:X" = "<image data-href=\"data:X\"/>" ∧
    injectQrHref "<image data-href=\"p\"/>" "data:X" ≠ "<image data-href=\"p\"/>" := by
  exact ⟨by decide, by decide⟩

/-- C6 amended: injection leaves the template unchanged exactly when
the image-href pattern has no match anywhere; and for every template
consisting of an image tag whose (`href` or `xlink:href`) attribute is
quoted with either quote style around an arbitrary quote-free value,
injecting a `$`-free artifact URI yields the same template with the
attribute value replaced exactly by the artifact.  (As the
counterexample shows, the pattern also fires on attributes merely
ending in `href`, so the original claim's "unchanged when no href'd
image element exists" does not hold in general.) -/
theorem injectArtifact_injection (t u : List Char) (extra : List Char)
    (hextra : extra = [] ∨ extra = "xlink:".toList)
    (q : Char) (hq : q = '"' ∨ q = singleQuoteChar)
    (val : List Char) (hval : ∀ c ∈ val, isQuoteChar c = false)
    (url : List Char) (hu : ∀ c ∈ url, (c == dollarChar) = false)
    (hnone : findImageMatch t = none) :
    injectChars t u = t ∧
    injectChars
        ("<image".toList ++
          (' ' :: (extra ++ ("href=".toList ++ (q :: (val ++ (q :: "/>".toList))))))) url =
      "<image".toList ++
        (' ' :: (extra ++ ("href=".toList ++ (q :: (url ++ (q :: "/>".toList)))))) := by
  constructor
  · rw [injectChars, hnone]
  · have hquote : isQuoteChar q = true := by
      rcases hq with h | h <;> rw [h] <;> rfl
    have htry : tryHrefAt ("href=".toList ++ (q :: (val ++ (q :: "/>".toList)))) =
        some (q, val, "/>".toList) := tryHrefAt_hit q val _ hquote hval
    have hscanHit : scanHref ("href=".toList ++ (q :: (val ++ (q :: "/>".toList)))) =
        some ([], q, val, "/>".toList) := by
      have : ("href=".toList ++ (q :: (val ++ (q :: "/>".toList)))) =
          'h' :: ("ref=".toList ++ (q :: (val ++ (q :: "/>".toList)))) := rfl
      rw [this] at htry ⊢
      exact scanHref_hit _ _ _ _ _ htry
    have hscan : scanHref
        (' ' :: (extra ++ ("href=".toList ++ (q :: (val ++ (q :: "/>".toList)))))) =
        some (' ' :: extra, q, val, "/>".toList) := by
      rcases hextra with he | he <;> subst he
      · simp only [List.nil_append]
        exact scanHref_step ' ' _ [] q val _ (by rfl) (by decide) hscanHit
      · refine scanHref_step ' ' _ _ q val _ (by rfl) (by decide) ?_
        refine scanHref_step 'x' _ _ q val _ (by rfl) (by decide) ?_
        refine scanHref_step 'l' _ _ q val _ (by rfl) (by decide) ?_
        refine scanHref_step 'i' _ _ q val _ (by rfl) (by decide) ?_
        refine scanHref_step 'n' _ _ q val _ (by rfl) (by decide) ?_
        refine scanHref_step 'k' _ _ q val _ (by rfl) (by decide) ?_
        exact scanHref_step ':' _ [] q val _ (by rfl) (by decide) hscanHit
    have hmatch : matchImageAt
        ("<image".toList ++
          (' ' :: (extra ++ ("href=".toList ++ (q :: (val ++ (q :: "/>".toList))))))) =
        some ("<image".toList ++ (' ' :: extra) ++ "href=".toList, q, val, "/>".toList) := by
      have := matchImageAt_eval _ _ _ _ _ hscan
      simpa using this
    have e1 : ("<image".toList ++
        (' ' :: (extra ++ ("href=".toList ++ (q :: (val ++ (q :: "/>".toList))))))) =
        '<' :: ("image".toList ++
          (' ' :: (extra ++ ("href=".toList ++ (q :: (val ++ (q :: "/>".toList))))))) := rfl
    rw [e1] at hmatch
    have hfind := findImageMatch_eval _ _ _ _ _ hmatch
    rw [e1, injectChars, hfind]
    simp only [getSub_replTmpl _ _ _ _ _ url hu]
    simp

theorem injectArtifact_injection_holds :
    (findImageMatch ("<p/>".toList) = none ∧ injectChars ("<p/>".toList) ("u".toList) =
      "<p/>".toList) ∧
    injectChars ("<image href=\"placeholder\"/>".toList) ("data:X".toList) =
      ("<image href=\"data:X\"/>".toList) := by
  have h := injectArtifact_injection ("<p/>".toList) ("u".toList) [] (Or.inl rfl)
    '"' (Or.inl rfl) ("placeholder".toList) (by decide) ("data:X".toList) (by decide)
    (by decide)
  exact ⟨⟨by decide, h.1⟩, h.2⟩

/-! ## Text placeholder replacement and artifact assembly

`handleGenerate` further rewrites the SVG with two global regex
replacements when `design.text` is truthy:
`(<text[^>]*>)\s*TEXT\s*(<\/text>)` with `$1<text>$2`, and — when
`design.foregroundColor` is truthy —
`(<text[^>]*fill=")[^"]*(")` with `$1<color>$2`; it then encodes the
result as `data:image/svg+xml;base64,` + `btoa(unescape(
encodeURIComponent(svgText)))`, i.e. base64 over the UTF-8 bytes. -/

/-- ASCII whitespace recognized for the regex `\s`. -/
def isWsChar (c : Char) : Bool :=
  c == ' ' || c == '\t' || c == '\n' || c == '\r' || c == Char.ofNat 11 || c == Char.ofNat 12

theorem dropLit_length {l cs r : List Char} (h : dropLit l cs = some r) :
    cs.length = l.length + r.length := by
  induction l generalizing cs with
  | nil =>
    rw [dropLit] at h
    cases h
    simp
  | cons c ls ih =>
    cases cs with
    | nil => cases h
    | cons c2 cs2 =>
      rw [dropLit] at h
      by_cases he : (c == c2) = true
      · rw [if_pos he] at h
        have := ih h
        simp [this]
        omega
      · rw [if_neg he] at h
        cases h

/-- Matcher for `(<text[^>]*>)\s*TEXT\s*(<\/text>)` at the current
position: returns group 1, the whole matched run, and the remainder.
The greedy `[^>]*` is deterministic (it must stop at the literal `>`),
as are the greedy `\s*` runs before the literals `TEXT` and
`</text>`. -/
def matchTextAt (cs : List Char) : Option (List Char × List Char × List Char) :=
  match dropLit ("<text".toList) cs with
  | none => none
  | some rest0 =>
    let attrs := rest0.takeWhile (fun c => ! (c == '>'))
    match rest0.drop attrs.length with
    | c1 :: rest1 =>
      if c1 == '>' then
        let ws1 := rest1.takeWhile isWsChar
        match dropLit ("TEXT".toList) (rest1.drop ws1.length) with
        | none => none
        | some rest2 =>
          let ws2 := rest2.takeWhile isWsChar
          match dropLit ("</text>".toList) (rest2.drop ws2.length) with
          | none => none
          | some rest3 =>
            let g1 := "<text".toList ++ attrs ++ ['>']
            some (g1, g1 ++ ws1 ++ "TEXT".toList ++ ws2 ++ "</text>".toList, rest3)
      else none
    | [] => none

theorem matchTextAt_length {cs g m r : List Char} (h : matchTextAt cs = some (g, m, r)) :
    r.length < cs.length := by
  rw [matchTextAt] at h
  cases hd : dropLit ("<text".toList) cs with
  | none => simp only [hd] at h; cases h
  | some rest0 =>
    simp only [hd] at h
    have h0 := dropLit_length hd
    have hdropLen : (rest0.drop (rest0.takeWhile (fun c => ! (c == '>'))).length).length ≤
        rest0.length := by
      rw [List.length_drop]
      omega
    cases ht : rest0.drop (rest0.takeWhile (fun c => ! (c == '>'))).length with
    | nil => simp only [ht] at h; cases h
    | cons c1 rest1 =>
      simp only [ht] at h
      rw [ht] at hdropLen
      by_cases hgt : (c1 == '>') = true
      · rw [if_pos hgt] at h
        have hws1 : (rest1.drop (rest1.takeWhile isWsChar).length).length ≤ rest1.length := by
          rw [List.length_drop]; omega
        cases h2 : dropLit ("TEXT".toList) (rest1.drop (rest1.takeWhile isWsChar).length) with
        | none => simp only [h2] at h; cases h
        | some rest2 =>
          simp only [h2] at h
          have hl2 := dropLit_length h2
          have hws2 : (rest2.drop (rest2.takeWhile isWsChar).length).length ≤
              rest2.length := by
            rw [List.length_drop]; omega
          cases h3 : dropLit ("</text>".toList) (rest2.drop (rest2.takeWhile isWsChar).length)
            with
          | none => simp only [h3] at h; cases h
          | some rest3 =>
            simp only [h3, Option.some.injEq, Prod.mk.injEq] at h
            obtain ⟨-, -, hr⟩ := h
            subst hr
            have hl3 := dropLit_length h3
            have e1 : ("<text".toList).length = 5 := rfl
            have e2 : ("TEXT".toList).length = 4 := rfl
            have e3 : ("</text>".toList).length = 7 := rfl
            rw [e1] at h0
            rw [e2] at hl2
            rw [e3] at hl3
            simp only [List.length_cons] at hdropLen
            omega
      · rw [if_neg hgt] at h
        cases h

/-- Rightmost-first scan for `fill="` inside the greedy `[^>]*` run of
the fill regex: the engine consumes `[^>]*` maximally and backtracks,
so later candidates win; the value `[^"]*` and its closing quote are
unrestricted by `[^>]`.  Returns the run before `fill="`, the value,
and the remainder after the closing quote. -/
def fillScan : List Char → Option (List Char × List Char × List Char)
  | [] => none
  | c :: cs =>
    if c == '>' then none
    else
      match fillScan cs with
      | some (mid, v, r) => some (c :: mid, v, r)
      | none =>
        match dropLit ("fill=\"".toList) (c :: cs) with
        | none => none
        | some afterQ =>
          let v := afterQ.takeWhile (fun ch => ! (ch == '"'))
          match afterQ.drop v.length with
          | c2 :: r => if c2 == '"' then some ([], v, r) else none
          | [] => none

theorem fillScan_length {cs mid v r : List Char} (h : fillScan cs = some (mid, v, r)) :
    r.length < cs.length := by
  induction cs generalizing mid v r with
  | nil => cases h
  | cons c cs ih =>
    rw [fillScan] at h
    by_cases hgt : (c == '>') = true
    · rw [if_pos hgt] at h; cases h
    · rw [if_neg hgt] at h
      cases hrec : fillScan cs with
      | some t =>
        obtain ⟨mid2, v2, r2⟩ := t
        simp only [hrec, Option.some.injEq, Prod.mk.injEq] at h
        obtain ⟨-, -, hr⟩ := h
        subst hr
        have := ih hrec
        simp only [List.length_cons]
        omega
      | none =>
        simp only [hrec] at h
        cases hd : dropLit ("fill=\"".toList) (c :: cs) with
        | none => simp only [hd] at h; cases h
        | some afterQ =>
          simp only [hd] at h
          have hl := dropLit_length hd
          have hdrop : (afterQ.drop
              (afterQ.takeWhile (fun ch => ! (ch == '"'))).length).length ≤
              afterQ.length := by
            rw [List.length_drop]; omega
          cases ht : afterQ.drop (afterQ.takeWhile (fun ch => ! (ch == '"'))).length with
          | nil => simp only [ht] at h; cases h
          | cons c2 r2 =>
            simp only [ht] at h
            rw [ht] at hdrop
            by_cases hq : (c2 == '"') = true
            · rw [if_pos hq] at h
              simp only [Option.some.injEq, Prod.mk.injEq] at h
              obtain ⟨-, -, hr⟩ := h
              subst hr
              have e1 : ("fill=\"".toList).length = 6 := rfl
              rw [e1] at hl
              simp only [List.length_cons] at hdrop hl ⊢
              omega
            · rw [if_neg hq] at h
              cases h

/-- Matcher for `(<text[^>]*fill=")[^"]*(")` at the current position:
returns group 1, the whole matched run and the remainder. -/
def matchFillAt (cs : List Char) : Option (List Char × List Char × List Char) :=
  match dropLit ("<text".toList) cs with
  | none => none
  | some rest0 =>
    match fillScan rest0 with
    | none => none
    | some (mid, v, r) =>
      let g1 := "<text".toList ++ mid ++ "fill=\"".toList
      some (g1, g1 ++ v ++ ['"'], r)

theorem matchFillAt_length {cs g m r : List Char} (h : matchFillAt cs = some (g, m, r)) :
    r.length < cs.length := by
  rw [matchFillAt] at h
  cases hd : dropLit ("<text".toList) cs with
  | none => simp only [hd] at h; cases h
  | some rest0 =>
    simp only [hd] at h
    have h0 := dropLit_length hd
    cases hs : fillScan rest0 with
    | none => simp only [hs] at h; cases h
    | some t =>
      obtain ⟨mid, v, r2⟩ := t
      simp only [hs, Option.some.injEq, Prod.mk.injEq] at h
      obtain ⟨-, -, hr⟩ := h
      subst hr
      have := fillScan_length hs
      have e1 : ("<text".toList).length = 5 := rfl
      rw [e1] at h0
      omega

/-- Two-group capture lookup for the text regexes. -/
def groupValT (g1 g2 : List Char) (n : Nat) : Option (List Char) :=
  if n = 1 then some g1 else if n = 2 then some g2 else none

/-- JS `GetSubstitution` for a two-group regex (same processing as
`getSub`, with groups 1 and 2). -/
def getSubT (matched pre post g1 g2 : List Char) (l : List Char) : List Char :=
  match l with
  | [] => []
  | c :: cs =>
    if c == dollarChar then
      match cs with
      | [] => [c]
      | c2 :: cs2 =>
        if c2 == dollarChar then dollarChar :: getSubT matched pre post g1 g2 cs2
        else if c2 == '&' then matched ++ getSubT matched pre post g1 g2 cs2
        else if c2 == backtickChar then pre ++ getSubT matched pre post g1 g2 cs2
        else if c2 == singleQuoteChar then post ++ getSubT matched pre post g1 g2 cs2
        else if c2.isDigit then
          match cs2 with
          | c3 :: cs3 =>
            if c3.isDigit then
              (groupValT g1 g2 (10 * (c2.toNat - 48) + (c3.toNat - 48))).elim
                ((groupValT g1 g2 (c2.toNat - 48)).elim
                  (c :: c2 :: getSubT matched pre post g1 g2 (c3 :: cs3))
                  (fun g => g ++ getSubT matched pre post g1 g2 (c3 :: cs3)))
                (fun g => g ++ getSubT matched pre post g1 g2 cs3)
            else
              (groupValT g1 g2 (c2.toNat - 48)).elim
                (c :: c2 :: getSubT matched pre post g1 g2 (c3 :: cs3))
                (fun g => g ++ getSubT matched pre post g1 g2 (c3 :: cs3))
          | [] =>
            (groupValT g1 g2 (c2.toNat - 48)).elim [c, c2] (fun g => g)
        else c :: c2 :: getSubT matched pre post g1 g2 cs2
    else c :: getSubT matched pre post g1 g2 cs

/-- Global replacement of the TEXT placeholder (`/g` flag): scan left
to right, substituting each match with `$1<txt>$2` and resuming after
it; `seen` accumulates the original text before the current position
(the `$-backtick` context of `GetSubstitution`). -/
def replaceTextContentAux (txt seen : List Char) (l : List Char) : List Char :=
  match l with
  | [] => []
  | c :: cs =>
    match _hm : matchTextAt (c :: cs) with
    | some (g1, m, rest) =>
        getSubT m seen rest g1 ("</text>".toList)
          ((dollarChar :: '1' :: txt) ++ [dollarChar, '2']) ++
        replaceTextContentAux txt (seen ++ m) rest
    | none => c :: replaceTextContentAux txt (seen ++ [c]) cs
termination_by l.length
decreasing_by
  · exact matchTextAt_length _hm
  · simp

/-- Global replacement of the text fill color (`/g` flag). -/
def replaceTextFillAux (color seen : List Char) (l : List Char) : List Char :=
  match l with
  | [] => []
  | c :: cs =>
    match _hm : matchFillAt (c :: cs) with
    | some (g1, m, rest) =>
        getSubT m seen rest g1 ['"']
          ((dollarChar :: '1' :: color) ++ [dollarChar, '2']) ++
        replaceTextFillAux color (seen ++ m) rest
    | none => c :: replaceTextFillAux color (seen ++ [c]) cs
termination_by l.length
decreasing_by
  · exact matchFillAt_length _hm
  · simp

/-- Base64 alphabet used by `btoa`. -/
def base64Chars : List Char :=
  "ABCDEFGHIJKLMNOPQRSTUVWXYZabcdefghijklmnopqrstuvwxyz0123456789+/".toList

def charAt64 (n : ℕ) : Char := base64Chars.getD n 'A'

/-- Base64 of a byte sequence with `=` padding. -/
def base64EncodeList : List ℕ → List Char
  | b1 :: b2 :: b3 :: rest =>
      charAt64 (b1 / 4) :: charAt64 ((b1 % 4) * 16 + b2 / 16) ::
      charAt64 ((b2 % 16) * 4 + b3 / 64) :: charAt64 (b3 % 64) :: base64EncodeList rest
  | [b1, b2] =>
      [charAt64 (b1 / 4), charAt64 ((b1 % 4) * 16 + b2 / 16), charAt64 ((b2 % 16) * 4), '=']
  | [b1] => [charAt64 (b1 / 4), charAt64 ((b1 % 4) * 16), '=', '=']
  | [] => []

/-- The per-design artifact string built by the loop body of
`handleGenerate`: image-href injection, optional TEXT and fill-color
replacement (only when `design.text` is truthy, fill only when
`design.foregroundColor` is truthy), then the
`data:image/svg+xml;base64,` encoding of the UTF-8 bytes. -/
def buildArtifact (d : Design) (tmpl url : String) : String :=
  let svg1 := injectQrHref tmpl url
  let svg2 :=
    if d.text ≠ "" then
      let t1 := (replaceTextContentAux d.text.toList [] svg1.toList).asString
      if d.foregroundColor ≠ "" then
        (replaceTextFillAux d.foregroundColor.toList [] t1.toList).asString
      else t1
    else svg1
  "data:image/svg+xml;base64," ++
    (base64EncodeList (svg2.toUTF8.toList.map (fun b => b.toNat))).asString

/-- A generated result, from `GeneratedQr` in `types.ts`. -/
structure GeneratedQr where
  designId : Int
  svg : String
deriving DecidableEq

/-- The design loop of `handleGenerate`: render the QR (passing the
uploaded background only to image designs), fetch the design's
template (`none` models a non-ok response, which skips the design via
`continue`), build and collect the artifact.  A rejection from
`drawCustomQr` would escape to the surrounding try/catch, aborting the
whole batch. -/
def generateLoop (qr : QrMatrix) (bg : Option ImageData) (imgLoads : Bool)
    (fetchTemplate : String → Option String) (toDataUrl : Canvas → String) :
    List Design → Except String (List GeneratedQr)
  | [] => Except.ok []
  | d :: rest =>
    match drawCustomQr (some qr) d (if d.useImage then bg else none) imgLoads 512 with
    | Except.error e => Except.error e
    | Except.ok c? =>
      let url := match c? with
        | some c => toDataUrl c
        | none => ""
      match fetchTemplate d.template with
      | none => generateLoop qr bg imgLoads fetchTemplate toDataUrl rest
      | some tmpl =>
        match generateLoop qr bg imgLoads fetchTemplate toDataUrl rest with
        | Except.error e => Except.error e
        | Except.ok out =>
            Except.ok ({ designId := d.id, svg := buildArtifact d tmpl url } :: out)

/-- `handleGenerate`: empty content is rejected up front (`none`);
otherwise the batch runs design by design and the collected results
are published (an escaped exception would leave the published list
empty). -/
def handleGenerate (content : String) (designs : List Design) (qr : QrMatrix)
    (bg : Option ImageData) (imgLoads : Bool) (fetchTemplate : String → Option String)
    (toDataUrl : Canvas → String) : Option (List GeneratedQr) :=
  if content = "" then none
  else some (match generateLoop qr bg imgLoads fetchTemplate toDataUrl designs with
    | Except.ok rs => rs
    | Except.error _ => [])

theorem generateLoop_eq (qr : QrMatrix) (bg : Option ImageData) (il : Bool)
    (fetch : String → Option String) (toUrl : Canvas → String) (designs : List Design) :
    generateLoop qr bg il fetch toUrl designs =
      Except.ok (designs.filterMap fun d =>
        (fetch d.template).map fun tmpl =>
          { designId := d.id,
            svg := buildArtifact d tmpl
              (toUrl (renderCanvas qr d (if d.useImage then bg else none) il 512)) }) := by
  induction designs with
  | nil => rfl
  | cons d rest ih =>
    rw [generateLoop]
    simp only [drawCustomQr]
    cases hf : fetch d.template with
    | none => simp [hf, ih, List.filterMap_cons]
    | some tmpl => simp [hf, ih, List.filterMap_cons]

/-- C9: with nonempty content, the batch produces exactly one artifact
per design whose template fetch succeeds, in input order — a failing
fetch omits just that design's output and processing continues — and
the result's design ids are the ids of the fetch-succeeding designs in
input order. -/
theorem batchSkip_and_order (content : String) (designs : List Design) (qr : QrMatrix)
    (bg : Option ImageData) (il : Bool) (fetch : String → Option String)
    (toUrl : Canvas → String) (hc : content ≠ "") :
    handleGenerate content designs qr bg il fetch toUrl =
      some (designs.filterMap fun d =>
        (fetch d.template).map fun tmpl =>
          { designId := d.id,
            svg := buildArtifact d tmpl
              (toUrl (renderCanvas qr d (if d.useImage then bg else none) il 512)) }) ∧
    (designs.filterMap fun d =>
        (fetch d.template).map fun tmpl =>
          ({ designId := d.id,
             svg := buildArtifact d tmpl
               (toUrl (renderCanvas qr d (if d.useImage then bg else none) il 512)) :
            GeneratedQr})).map (fun r => r.designId) =
      (designs.filter fun d => (fetch d.template).isSome).map (fun d => d.id) := by
  constructor
  · rw [handleGenerate, if_neg hc, generateLoop_eq]
  · induction designs with
    | nil => rfl
    | cons d rest ih =>
      cases hf : fetch d.template with
      | none => simp [List.filterMap_cons, List.filter_cons, hf, ih]
      | some tmpl => simp [List.filterMap_cons, List.filter_cons, hf, ih]

/-- Template-fetch oracle for the batch scenario: template `"b"`
fails, everything else succeeds. -/
def fetchW : String → Option String := fun t => if t = "b" then none else some t

def dA : Design := { designT with id := 1, template := "a" }

def dB : Design := { designT with id := 2, template := "b" }

def dC : Design := { designT with id := 3, template := "c" }

theorem batchSkip_and_order_holds :
    ("x" : String) ≠ "" ∧
    handleGenerate "x" [dA, dB, dC] qrOne none true fetchW (fun _ => "url") =
      some [{ designId := 1, svg := buildArtifact dA "a" "url" },
            { designId := 3, svg := buildArtifact dC "c" "url" }] := by
  refine ⟨by decide, ?_⟩
  rw [(batchSkip_and_order "x" [dA, dB, dC] qrOne none true fetchW (fun _ => "url")
    (by decide)).1]
  rfl

end QrStudio
